import Mathlib

/-!
A verification development for `pycps/parsers.py`: the data-dictionary
parser (`DDParser`), its consistency validator, and the month-to-dictionary
resolver (`_month_to_dd`).  Python code is shallowly embedded: regular
expressions become an explicit backtracking matcher over lists of
single-character-class elements, Python ints become `Int`, exceptions become
explicit result constructors.
-/

namespace PyCPS

/-- One layout record, the tuple `(id_, length, start, end)` built by
`DDParser.formatter`.  The Python tuple field `end` is a Lean keyword and is
rendered `end_`. -/
structure LayoutRecord where
  id : String
  length : Int
  start : Int
  end_ : Int
deriving DecidableEq, Repr

/- ------------------------------------------------------------------
Regular expressions.

Each compiled pattern of `DDParser.make_regex` is embedded as a list of
elements; every repetition operator in the three source patterns applies to a
single-character class, so an element is a bounded/unbounded repetition of a
character class, a literal, a group marker, or the `$` anchor.  The one
alternation, `(\w{1,2}[\$\-%]\w*|PADDING)` in style 0, is rendered as a
pattern with two alternative element sequences (tried left to right, as the
regex engine does).
------------------------------------------------------------------ -/

/-- A regex element: `cls p lo hi lazy` is a repetition of the character
class `p` between `lo` and `hi` times (`hi = none` meaning unbounded),
lazy or greedy; `lit` a literal; `openG`/`closeG` capture-group delimiters;
`eos` the `$` anchor. -/
inductive RElem where
  | cls (p : Char → Bool) (lo : Nat) (hi : Option Nat) (lazy : Bool)
  | lit (l : List Char)
  | openG (n : Nat)
  | closeG (n : Nat)
  | eos

/-- Python `\w` (ASCII range, which is all the dictionaries use). -/
def isWordChar (c : Char) : Bool := c.isAlphanum || c == '_'

/-- Python `\s`. -/
def isSpaceChar (c : Char) : Bool :=
  c == ' ' || c == '\t' || c == '\n' || c == '\r' || c == '\x0c' || c == '\x0b'

/-- Python `\d` (ASCII). -/
def isDigitChar (c : Char) : Bool := c.isDigit

/-- Python `.` (no DOTALL: anything but a newline). -/
def isAnyChar (c : Char) : Bool := c != '\n'

/-- The lengths a repetition of class `p` may consume from `cs`, in the
order the backtracking engine tries them: greedy from longest to `lo`,
lazy from `lo` upward. -/
def clsCandidates (p : Char → Bool) (lo : Nat) (hi : Option Nat) (lazy : Bool)
    (cs : List Char) : List Nat :=
  let m := (cs.takeWhile p).length
  let top := match hi with | none => m | some h => min h m
  if lazy then (List.range (top + 1 - lo)).map (fun j => lo + j)
  else (List.range (top + 1 - lo)).map (fun j => top - j)

/-- The backtracking matcher.  `rmatch es cs pos opens caps` matches the
element sequence `es` against `cs` (the suffix of the subject starting at
offset `pos`); `opens` records the start offsets of opened groups and `caps`
the completed captures `(group, start, stop)`.  Matching a prefix suffices
(`re.match` semantics); `eos` is the explicit `$` anchor. -/
def rmatch : List RElem → List Char → Nat → List (Nat × Nat) →
    List (Nat × Nat × Nat) → Option (List (Nat × Nat × Nat))
  | [], _, _, _, caps => some caps
  | .eos :: es, cs, pos, opens, caps =>
      if cs.isEmpty then rmatch es cs pos opens caps else none
  | .lit l :: es, cs, pos, opens, caps =>
      if l.isPrefixOf cs then rmatch es (cs.drop l.length) (pos + l.length) opens caps
      else none
  | .openG n :: es, cs, pos, opens, caps =>
      rmatch es cs pos ((n, pos) :: opens) caps
  | .closeG n :: es, cs, pos, opens, caps =>
      match opens.lookup n with
      | some a => rmatch es cs pos opens ((n, a, pos) :: caps)
      | none => none
  | .cls p lo hi lz :: es, cs, pos, opens, caps =>
      (clsCandidates p lo hi lz cs).findSome?
        (fun k => rmatch es (cs.drop k) (pos + k) opens caps)

/-- A compiled regex: alternative element sequences (tried in order) plus
the number of capture groups. -/
structure CompiledRegex where
  pattern : List (List RElem)
  groups : Nat

/-- Model of `regex.match(line)` followed by `.groups()`: `none` when the
line does not match, otherwise the list of captured substrings in group
order.  (In all three source patterns every group participates in every
successful match.) -/
def reMatch (re : CompiledRegex) (s : String) : Option (List String) :=
  (re.pattern.findSome? (fun es => rmatch es s.data 0 [] [])).map (fun caps =>
    (List.range re.groups).map (fun i =>
      match caps.find? (fun c => c.1 == i + 1) with
      | some c => String.mk ((s.data.drop c.2.1).take (c.2.2 - c.2.1))
      | none => ""))

/-- Elements shared by both alternatives of the style-0 pattern
`(\w{1,2}[\$\-%]\w*|PADDING)\s*CHARACTER\*(\d{3})\s*\.{0,1}\s*\((\d*):(\d*)\).*`,
from the closing of group 1 onward. -/
def style0_tail : List RElem :=
  [.closeG 1,
   .cls isSpaceChar 0 none false,
   .lit ("CHARACTER*".data),
   .openG 2, .cls isDigitChar 3 (some 3) false, .closeG 2,
   .cls isSpaceChar 0 none false,
   .cls (fun c => c == '.') 0 (some 1) false,
   .cls isSpaceChar 0 none false,
   .lit ['('],
   .openG 3, .cls isDigitChar 0 none false, .closeG 3,
   .lit [':'],
   .openG 4, .cls isDigitChar 0 none false, .closeG 4,
   .lit [')'],
   .cls isAnyChar 0 none false]

/-- Style 0 pattern: the group-1 alternation expanded into two alternative
sequences. -/
def style0_regex : CompiledRegex :=
  ⟨[[.openG 1,
     .cls isWordChar 1 (some 2) false,
     .cls (fun c => c == '$' || c == '-' || c == '%') 1 (some 1) false,
     .cls isWordChar 0 none false] ++ style0_tail,
    [.openG 1, .lit ("PADDING".data)] ++ style0_tail],
   4⟩

/-- Style 1 pattern `D (\w+) \s* (\d{1,2}) \s* (\d*)` (no VERBOSE flag: the
spaces in the pattern are literal). -/
def style1_elems : List RElem :=
  [.lit ['D', ' '],
   .openG 1, .cls isWordChar 1 none false, .closeG 1,
   .lit [' '], .cls isSpaceChar 0 none false, .lit [' '],
   .openG 2, .cls isDigitChar 1 (some 2) false, .closeG 2,
   .lit [' '], .cls isSpaceChar 0 none false, .lit [' '],
   .openG 3, .cls isDigitChar 0 none false, .closeG 3]

def style1_regex : CompiledRegex := ⟨[style1_elems], 3⟩

/-- The default pattern
`[\x0c]{0,1}(\w+)[\s\t]*(\d{1,2})[\s\t]*(.*?)[\s\t]*\(*(\d+)\s*-\s*(\d+)\)*\s*$`.
Lines are modelled without their trailing newline, so `$` is end of string. -/
def default_elems : List RElem :=
  [.cls (fun c => c == '\x0c') 0 (some 1) false,
   .openG 1, .cls isWordChar 1 none false, .closeG 1,
   .cls isSpaceChar 0 none false,
   .openG 2, .cls isDigitChar 1 (some 2) false, .closeG 2,
   .cls isSpaceChar 0 none false,
   .openG 3, .cls isAnyChar 0 none true, .closeG 3,
   .cls isSpaceChar 0 none false,
   .cls (fun c => c == '(') 0 none false,
   .openG 4, .cls isDigitChar 1 none false, .closeG 4,
   .cls isSpaceChar 0 none false,
   .lit ['-'],
   .cls isSpaceChar 0 none false,
   .openG 5, .cls isDigitChar 1 none false, .closeG 5,
   .cls (fun c => c == ')') 0 none false,
   .cls isSpaceChar 0 none false,
   .eos]

def default_regex : CompiledRegex := ⟨[default_elems], 5⟩

/-- `DDParser.make_regex`: `d.get(style, default)` over
`{0: style0, 1: style1, 2: default}` — any style id outside the table falls
back to the default pattern. -/
def make_regex (style : Int) : CompiledRegex :=
  (([(0, style0_regex), (1, style1_regex), (2, default_regex)] :
      List (Int × CompiledRegex)).lookup style).getD default_regex

/-- The static name-to-style table from `DDParser.__init__`. -/
def styles : List (String × Int) :=
  [("jan1989", 0), ("jan1992", 0), ("jan1994", 2),
   ("apr1994", 2), ("jun1995", 2), ("sep1995", 2),
   ("jan1998", 1), ("jan2003", 2), ("may2004", 2),
   ("aug2005", 2), ("jan2007", 2), ("jan2009", 2),
   ("jan2010", 2), ("may2012", 2), ("jan2013", 2)]

/-- Python `max(styles.values())` (the table is nonempty, so `max` cannot
raise; the `getD 0` default is never used). -/
def max_style : Int := ((styles.map (fun kv => kv.2)).max?).getD 0

/-- `styles.get(store_name, max(styles.values()))` from `DDParser.__init__`:
style resolution with fallback to the greatest style id. -/
def styleFor (store_name : String) : Int :=
  (styles.lookup store_name).getD max_style

/- ------------------------------------------------------------------
Record formatting (`DDParser.formatter`, `DDParser.handle_replacers`).
------------------------------------------------------------------ -/

/-- Replace every occurrence of the single character `bad` by `good`
(Python `str.replace` with one-character arguments). -/
def replace_char (bad good : Char) (s : String) : String :=
  String.mk (s.data.map (fun c => if c = bad then good else c))

/-- `DDParser.handle_replacers`: rewrite `$` to `d`, then `%` to `p`, then
`-` to `h` (the dict's insertion order). -/
def handle_replacers (id_ : String) : String :=
  replace_char '-' 'h' (replace_char '%' 'p' (replace_char '$' 'd' id_))

/-- Model of Python `int()` on a captured substring: defined on nonempty
all-digit strings (which is every string the formatter feeds it when it does
not raise); any other input raises `ValueError`, rendered `none`. -/
def py_int (s : String) : Option Int :=
  if s.data ≠ [] ∧ s.data.all Char.isDigit then
    some ((s.data.foldl (fun acc c => acc * 10 + (c.toNat - 48)) 0 : Nat) : Int)
  else none

/-- `DDParser.formatter` on the captured groups of one match.  For style 1,
groups are `(id, length, start)` and `end = start + length - 1`; otherwise
unpacking as `(id, length, start, end)` is attempted first (applying
`handle_replacers` to the id) and on a `ValueError` the five-group shape
`(id, length, description, start, end)` is used without `handle_replacers`.
A failure of both unpackings, or of `int()`, is an uncaught exception,
rendered `none`. -/
def formatter (style : Int) (groups : List String) : Option LayoutRecord :=
  if style = 1 then
    match groups with
    | [id_, length, start] =>
      match py_int length, py_int start with
      | some l, some s => some ⟨id_, l, s, s + l - 1⟩
      | _, _ => none
    | _ => none
  else
    match groups with
    | [id_, length, start, end_] =>
      match py_int length, py_int start, py_int end_ with
      | some l, some s, some e => some ⟨handle_replacers id_, l, s, e⟩
      | _, _, _ => none
    | [id_, length, _description, start, end_] =>
      match py_int length, py_int start, py_int end_ with
      | some l, some s, some e => some ⟨id_, l, s, e⟩
      | _, _, _ => none
    | _ => none

/- ------------------------------------------------------------------
Consistency validation (`DDParser._is_consistent`) and `DDParser.run`.
------------------------------------------------------------------ -/

/-- How `_is_consistent` terminates: `stopIteration` is the success signal
(`run` catches it and builds the table); `widthError` and `continuityError`
are the two validation failures; `unboundLocalError` is the uncaught
`UnboundLocalError` raised by `check_width(old)` when `old` was never
assigned (single-record input). -/
inductive ConsistencyResult where
  | stopIteration
  | widthError
  | continuityError
  | unboundLocalError
deriving DecidableEq, Repr

/-- `check_width`: `current[1] == current[3] - current[2] + 1`. -/
def check_width (current : LayoutRecord) : Bool :=
  current.length == current.end_ - current.start + 1

/-- `check_continuity`: `current[2] == old[3] + 1`. -/
def check_continuity (current old : LayoutRecord) : Bool :=
  current.start == old.end_ + 1

/-- The `while True` loop of `_is_consistent`.  Each iteration width-checks
`current`; then the tuple assignment `old, current, i = current, next(g), i+1`
either advances (and continuity-checks the new `current` against `old`) or
raises `StopIteration` before binding `old`, in which case the handler runs
`check_width(old)` on the *previous* iteration's `old` — unbound when the
sequence had a single record. -/
def consistency_loop (old? : Option LayoutRecord) (current : LayoutRecord) :
    List LayoutRecord → ConsistencyResult
  | [] =>
    if ¬ check_width current then .widthError
    else
      match old? with
      | none => .unboundLocalError
      | some old => if ¬ check_width old then .widthError else .stopIteration
  | next :: rest =>
    if ¬ check_width current then .widthError
    else if ¬ check_continuity next current then .continuityError
    else consistency_loop (some current) next rest

/-- `DDParser._is_consistent` on the formatted list: an empty list raises
`StopIteration` at the initial `current = next(g)` (outside the `try`), which
`run` also treats as success. -/
def _is_consistent : List LayoutRecord → ConsistencyResult
  | [] => .stopIteration
  | current :: rest => consistency_loop none current rest

/-- The outcome of `DDParser.run`: the DataFrame built on success is the
ordered list of records; `raise ValueError` (reached from either
`WidthError` or `ContinuityError`, with nothing attached) is `valueError`;
any exception `run` does not catch (the formatter's uncaught `ValueError`,
the validator's `UnboundLocalError`) is `crash`. -/
inductive RunResult where
  | success (df : List LayoutRecord)
  | valueError
  | crash
deriving DecidableEq, Repr

/-- The list comprehension `[self.formatter(x) for x in lines]`: built left
to right, the first uncaught exception aborting the whole comprehension. -/
def traverseOpt (f : α → Option β) : List α → Option (List β)
  | [] => some []
  | x :: xs =>
    match f x, traverseOpt f xs with
    | some y, some ys => some (y :: ys)
    | _, _ => none

/-- The header-matching stage of `run`: `filter(None, (regex.match(line) for
line in f))`, keeping each match's groups.  Lines that do not match are
dropped. -/
def matched_lines (style : Int) (lines : List String) : List (List String) :=
  lines.filterMap (fun line => reMatch (make_regex style) line)

/-- The `formatted` list of `run`, when no formatter call raises. -/
def formattedOf (style : Int) (lines : List String) : Option (List LayoutRecord) :=
  traverseOpt (formatter style) (matched_lines style lines)

/-- `DDParser.run` over the dictionary's lines (modelled without their
trailing newlines, which the patterns' `\s*`/`$` make immaterial), for a
parser whose resolved style is `style`. -/
def run (style : Int) (lines : List String) : RunResult :=
  match formattedOf style lines with
  | none => .crash
  | some formatted =>
    match _is_consistent formatted with
    | .stopIteration => .success formatted
    | .widthError => .valueError
    | .continuityError => .valueError
    | .unboundLocalError => .crash

/- ------------------------------------------------------------------
Monthly data files: `_month_to_dd`.

The `arrow` calls are modelled on calendar dates (times are always
midnight UTC here and never differ): `arrow.get("YYYY-MM")` yields the
first of the month, `arrow.Arrow.range(start, end, frame='month')` the list
`start, start + 1 month, ...` while `≤ end`, and `value in rng` is equality
with some element.
------------------------------------------------------------------ -/

/-- A calendar date (the time component of every `arrow` value involved is
midnight and is omitted). -/
structure Date where
  year : Nat
  month : Nat
  day : Nat
deriving DecidableEq, Repr

/-- Months elapsed since year 0 for a date's year-month component. -/
def month_index (d : Date) : Nat := 12 * d.year + (d.month - 1)

/-- Shifting a date by one month (`frame='month'` stepping; the day is kept,
and every date stepped in this file is a first-of-month). -/
def next_month (d : Date) : Date :=
  if d.month = 12 then ⟨d.year + 1, 1, d.day⟩ else ⟨d.year, d.month + 1, d.day⟩

/-- `n` consecutive monthly steps starting at `d`. -/
def mk_range_aux : Nat → Date → List Date
  | 0, _ => []
  | n + 1, d => d :: mk_range_aux n (next_month d)

/-- `mk_range` from `_month_to_dd`: all monthly steps from `start` up to and
including `stop` (empty when `start` is after `stop`). -/
def mk_range (start stop : Date) : List Date :=
  mk_range_aux (month_index stop + 1 - month_index start) start

/-- The literal `dd_to_month` table of `_month_to_dd`, with its `YYYY-MM`
boundary strings parsed (as `arrow.get` does) to the first of the month. -/
def dd_to_month : List (String × Date × Date) :=
  [("jan1989", ⟨1989, 1, 1⟩, ⟨1991, 12, 1⟩),
   ("jan1992", ⟨1992, 1, 1⟩, ⟨1993, 12, 1⟩),
   ("jan1994", ⟨1994, 1, 1⟩, ⟨1994, 3, 1⟩),
   ("apr1994", ⟨1994, 4, 1⟩, ⟨1995, 5, 1⟩),
   ("jun1995", ⟨1995, 6, 1⟩, ⟨1995, 8, 1⟩),
   ("sep1995", ⟨1995, 9, 1⟩, ⟨1997, 12, 1⟩),
   ("jan1998", ⟨1998, 1, 1⟩, ⟨2002, 12, 1⟩),
   ("jan2003", ⟨2003, 1, 1⟩, ⟨2004, 4, 1⟩),
   ("may2004", ⟨2004, 5, 1⟩, ⟨2005, 7, 1⟩),
   ("aug2005", ⟨2005, 8, 1⟩, ⟨2006, 12, 1⟩),
   ("jan2007", ⟨2007, 1, 1⟩, ⟨2008, 12, 1⟩),
   ("jan2009", ⟨2009, 1, 1⟩, ⟨2009, 12, 1⟩),
   ("jan2010", ⟨2010, 1, 1⟩, ⟨2012, 4, 1⟩),
   ("may2012", ⟨2012, 5, 1⟩, ⟨2012, 12, 1⟩),
   ("jan2013", ⟨2013, 1, 1⟩, ⟨2013, 3, 1⟩)]

/-- `_month_to_dd` on an already-parsed month value: filter the table keys by
membership of the queried value in the key's month range and take the first;
`list(dd)[0]` on an empty filter raises `IndexError` (failed resolution),
rendered `none`. -/
def _month_to_dd (month : Date) : Option String :=
  (((dd_to_month.filter (fun kv => decide (month ∈ mk_range kv.2.1 kv.2.2))).map
      (fun kv => kv.1)).head?)

/- ------------------------------------------------------------------
Lemmas about the matcher.
------------------------------------------------------------------ -/

theorem clsCandidates_mem {p : Char → Bool} {lo : Nat} {hi : Option Nat} {lz : Bool}
    {cs : List Char} {k : Nat} (h : k ∈ clsCandidates p lo hi lz cs) :
    lo ≤ k ∧ k ≤ (cs.takeWhile p).length ∧ ∀ b, hi = some b → k ≤ b := by
  rcases hi with _ | b <;> rcases lz with _ | _ <;>
    simp only [clsCandidates, Bool.false_eq_true, if_false, if_true, List.mem_map,
      List.mem_range] at h <;>
    obtain ⟨j, hj, rfl⟩ := h <;>
    refine ⟨by omega, by omega, ?_⟩ <;> intro b' hb' <;>
    first
      | (injection hb' with hb'; omega)
      | exact absurd hb' (by simp)

theorem rmatch_cls_elim {p : Char → Bool} {lo : Nat} {hi : Option Nat} {lz : Bool}
    {es : List RElem} {cs : List Char} {pos : Nat} {opens : List (Nat × Nat)}
    {caps r : List (Nat × Nat × Nat)}
    (h : rmatch (.cls p lo hi lz :: es) cs pos opens caps = some r) :
    ∃ k, lo ≤ k ∧ k ≤ (cs.takeWhile p).length ∧ (∀ b, hi = some b → k ≤ b) ∧
      rmatch es (cs.drop k) (pos + k) opens caps = some r := by
  simp only [rmatch] at h
  obtain ⟨k, hk, hr⟩ := List.exists_of_findSome?_eq_some h
  obtain ⟨h1, h2, h3⟩ := clsCandidates_mem hk
  exact ⟨k, h1, h2, h3, hr⟩

theorem rmatch_lit_elim {l : List Char} {es : List RElem} {cs : List Char} {pos : Nat}
    {opens : List (Nat × Nat)} {caps r : List (Nat × Nat × Nat)}
    (h : rmatch (.lit l :: es) cs pos opens caps = some r) :
    l.isPrefixOf cs ∧ rmatch es (cs.drop l.length) (pos + l.length) opens caps = some r := by
  simp only [rmatch] at h
  by_cases hp : l.isPrefixOf cs
  · rw [if_pos hp] at h; exact ⟨hp, h⟩
  · rw [if_neg hp] at h; exact absurd h (by simp)

theorem rmatch_openG (n : Nat) (es : List RElem) (cs : List Char) (pos : Nat)
    (opens : List (Nat × Nat)) (caps : List (Nat × Nat × Nat)) :
    rmatch (.openG n :: es) cs pos opens caps = rmatch es cs pos ((n, pos) :: opens) caps := by
  simp only [rmatch]

theorem rmatch_closeG_elim {n : Nat} {es : List RElem} {cs : List Char} {pos : Nat}
    {opens : List (Nat × Nat)} {caps r : List (Nat × Nat × Nat)}
    (h : rmatch (.closeG n :: es) cs pos opens caps = some r) :
    ∃ a, opens.lookup n = some a ∧ rmatch es cs pos opens ((n, a, pos) :: caps) = some r := by
  simp only [rmatch] at h
  rcases hl : opens.lookup n with _ | a
  · rw [hl] at h; exact absurd h (by simp)
  · rw [hl] at h; exact ⟨a, rfl, h⟩

/-- The group numbers closed by a sequence of elements. -/
def closedNums (es : List RElem) : List Nat :=
  es.filterMap (fun e => match e with | .closeG n => some n | _ => none)

/-- The matcher only prepends to the capture list. -/
theorem rmatch_caps_mono {es : List RElem} : ∀ {cs : List Char} {pos : Nat}
    {opens : List (Nat × Nat)} {caps r : List (Nat × Nat × Nat)},
    rmatch es cs pos opens caps = some r → ∀ c ∈ caps, c ∈ r := by
  induction es with
  | nil =>
    intro cs pos opens caps r h c hc
    simp only [rmatch, Option.some.injEq] at h
    exact h ▸ hc
  | cons e es ih =>
    intro cs pos opens caps r h c hc
    cases e with
    | cls p lo hi lz =>
      obtain ⟨k, _, _, _, hr⟩ := rmatch_cls_elim h
      exact ih hr c hc
    | lit l =>
      obtain ⟨_, hr⟩ := rmatch_lit_elim h
      exact ih hr c hc
    | openG n =>
      rw [rmatch_openG] at h
      exact ih h c hc
    | closeG n =>
      obtain ⟨a, _, hr⟩ := rmatch_closeG_elim h
      exact ih hr c (List.mem_cons_of_mem _ hc)
    | eos =>
      simp only [rmatch] at h
      by_cases he : cs.isEmpty
      · rw [if_pos he] at h; exact ih h c hc
      · rw [if_neg he] at h; exact absurd h (by simp)

/-- Any capture present after a match was either already present or closes a
group number mentioned by a `closeG` of the element sequence. -/
theorem rmatch_caps_new {es : List RElem} : ∀ {cs : List Char} {pos : Nat}
    {opens : List (Nat × Nat)} {caps r : List (Nat × Nat × Nat)},
    rmatch es cs pos opens caps = some r → ∀ c ∈ r, c ∈ caps ∨ c.1 ∈ closedNums es := by
  induction es with
  | nil =>
    intro cs pos opens caps r h c hc
    simp only [rmatch, Option.some.injEq] at h
    exact Or.inl (h ▸ hc)
  | cons e es ih =>
    intro cs pos opens caps r h c hc
    cases e with
    | cls p lo hi lz =>
      obtain ⟨k, _, _, _, hr⟩ := rmatch_cls_elim h
      rcases ih hr c hc with h' | h'
      · exact Or.inl h'
      · exact Or.inr (by simpa [closedNums] using h')
    | lit l =>
      obtain ⟨_, hr⟩ := rmatch_lit_elim h
      rcases ih hr c hc with h' | h'
      · exact Or.inl h'
      · exact Or.inr (by simpa [closedNums] using h')
    | openG n =>
      rw [rmatch_openG] at h
      rcases ih h c hc with h' | h'
      · exact Or.inl h'
      · exact Or.inr (by simpa [closedNums] using h')
    | closeG n =>
      obtain ⟨a, _, hr⟩ := rmatch_closeG_elim h
      rcases ih hr c hc with h' | h'
      · rcases List.mem_cons.mp h' with h'' | h''
        · exact Or.inr (by simp [closedNums, h''])
        · exact Or.inl h''
      · exact Or.inr (by simp [closedNums]; exact Or.inr (by simpa [closedNums] using h'))
    | eos =>
      simp only [rmatch] at h
      by_cases he : cs.isEmpty
      · rw [if_pos he] at h
        rcases ih h c hc with h' | h'
        · exact Or.inl h'
        · exact Or.inr (by simpa [closedNums] using h')
      · rw [if_neg he] at h; exact absurd h (by simp)

/-- Characters within the maximal `takeWhile` run satisfy the class. -/
theorem take_sat_of_le_takeWhile {p : Char → Bool} : ∀ {l : List Char} {k : Nat},
    k ≤ (l.takeWhile p).length → ∀ c ∈ l.take k, p c := by
  intro l
  induction l with
  | nil => intro k _ c hc; simp at hc
  | cons x l ih =>
    intro k hk c hc
    by_cases hp : p x
    · cases k with
      | zero => simp at hc
      | succ j =>
        simp only [List.takeWhile_cons, hp, if_true, List.length_cons] at hk
        rcases List.mem_cons.mp (by simpa using hc) with h | h
        · exact h ▸ hp
        · exact ih (by omega) c h
    · simp [List.takeWhile_cons, hp] at hk
      have hk0 : k = 0 := by omega
      subst hk0
      simp at hc

/- ------------------------------------------------------------------
Lemmas about the consistency validator and `run`.
------------------------------------------------------------------ -/

theorem check_width_iff (r : LayoutRecord) :
    check_width r = true ↔ r.length = r.end_ - r.start + 1 := by
  simp [check_width]

theorem check_continuity_iff (cur old : LayoutRecord) :
    check_continuity cur old = true ↔ cur.start = old.end_ + 1 := by
  simp [check_continuity]

/-- The continuity relation between adjacent records, as a proposition. -/
def Contiguous (prev cur : LayoutRecord) : Prop := cur.start = prev.end_ + 1

/-- A successful pass of the loop width-checked every record it saw. -/
theorem consistency_loop_stop_width : ∀ {rest : List LayoutRecord}
    {old? : Option LayoutRecord} {current : LayoutRecord},
    consistency_loop old? current rest = .stopIteration →
    check_width current ∧ ∀ r ∈ rest, check_width r := by
  intro rest
  induction rest with
  | nil =>
    intro old? current h
    simp only [consistency_loop] at h
    by_cases hw : check_width current
    · exact ⟨hw, fun r hr => absurd hr (List.not_mem_nil r)⟩
    · simp [hw] at h
  | cons next rest ih =>
    intro old? current h
    simp only [consistency_loop] at h
    by_cases hw : check_width current
    · by_cases hc : check_continuity next current
      · simp only [hw, hc, not_true, if_neg, ite_false, not_false_iff, if_false] at h
        obtain ⟨h1, h2⟩ := ih (by simpa using h)
        exact ⟨hw, by
          intro r hr
          rcases List.mem_cons.mp hr with h' | h'
          · exact h' ▸ h1
          · exact h2 r h'⟩
      · simp [hw, hc] at h
    · simp [hw] at h

/-- A successful pass of the loop continuity-checked every adjacent pair. -/
theorem consistency_loop_stop_chain : ∀ {rest : List LayoutRecord}
    {old? : Option LayoutRecord} {current : LayoutRecord},
    consistency_loop old? current rest = .stopIteration →
    List.Chain' Contiguous (current :: rest) := by
  intro rest
  induction rest with
  | nil => intro old? current _; simp
  | cons next rest ih =>
    intro old? current h
    simp only [consistency_loop] at h
    by_cases hw : check_width current
    · by_cases hc : check_continuity next current
      · simp only [hw, hc, not_true, not_false_iff, if_false] at h
        have htail := ih (by simpa using h)
        exact List.Chain'.cons ((check_continuity_iff next current).mp hc) htail
      · simp [hw, hc] at h
    · simp [hw] at h

/-- A width violation anywhere makes the loop end in `WidthError` or
`ContinuityError` (never success, never the unbound-local crash). -/
theorem consistency_loop_width_violation : ∀ {rest : List LayoutRecord}
    {old? : Option LayoutRecord} {current : LayoutRecord},
    (¬ check_width current ∨ ∃ r ∈ rest, ¬ check_width r) →
    consistency_loop old? current rest = .widthError ∨
      consistency_loop old? current rest = .continuityError := by
  intro rest
  induction rest with
  | nil =>
    intro old? current hv
    rcases hv with hv | ⟨r, hr, _⟩
    · left; simp [consistency_loop, hv]
    · exact absurd hr (List.not_mem_nil r)
  | cons next rest ih =>
    intro old? current hv
    by_cases hw : check_width current
    · by_cases hc : check_continuity next current
      · have hv' : ¬ check_width next ∨ ∃ r ∈ rest, ¬ check_width r := by
          rcases hv with hv | ⟨r, hr, hrw⟩
          · exact absurd hw hv
          · rcases List.mem_cons.mp hr with h' | h'
            · exact Or.inl (h' ▸ hrw)
            · exact Or.inr ⟨r, h', hrw⟩
        simpa [consistency_loop, hw, hc] using ih hv'
      · right; simp [consistency_loop, hw, hc]
    · left; simp [consistency_loop, hw]

/-- A broken adjacent pair makes the loop end in `WidthError` or
`ContinuityError`. -/
theorem consistency_loop_chain_violation : ∀ {rest : List LayoutRecord}
    {old? : Option LayoutRecord} {current : LayoutRecord},
    ¬ List.Chain' Contiguous (current :: rest) →
    consistency_loop old? current rest = .widthError ∨
      consistency_loop old? current rest = .continuityError := by
  intro rest
  induction rest with
  | nil => intro old? current hv; exact absurd (by simp) hv
  | cons next rest ih =>
    intro old? current hv
    by_cases hw : check_width current
    · by_cases hc : check_continuity next current
      · have hv' : ¬ List.Chain' Contiguous (next :: rest) := by
          intro hch
          exact hv (List.Chain'.cons ((check_continuity_iff next current).mp hc) hch)
        simpa [consistency_loop, hw, hc] using ih hv'
      · right; simp [consistency_loop, hw, hc]
    · left; simp [consistency_loop, hw]

theorem is_consistent_stop_width {fmt : List LayoutRecord}
    (h : _is_consistent fmt = .stopIteration) : ∀ r ∈ fmt, check_width r := by
  cases fmt with
  | nil => intro r hr; exact absurd hr (List.not_mem_nil r)
  | cons current rest =>
    obtain ⟨h1, h2⟩ := consistency_loop_stop_width (by simpa [_is_consistent] using h)
    intro r hr
    rcases List.mem_cons.mp hr with h' | h'
    · exact h' ▸ h1
    · exact h2 r h'

theorem is_consistent_stop_chain {fmt : List LayoutRecord}
    (h : _is_consistent fmt = .stopIteration) : List.Chain' Contiguous fmt := by
  cases fmt with
  | nil => simp
  | cons current rest =>
    exact consistency_loop_stop_chain (by simpa [_is_consistent] using h)

theorem run_eq_of_formatted {style : Int} {lines : List String}
    {fmt : List LayoutRecord} (hf : formattedOf style lines = some fmt) :
    run style lines =
      match _is_consistent fmt with
      | .stopIteration => .success fmt
      | .widthError => .valueError
      | .continuityError => .valueError
      | .unboundLocalError => .crash := by
  unfold run
  rw [hf]

theorem run_success_elim {style : Int} {lines : List String} {df : List LayoutRecord}
    (h : run style lines = .success df) :
    formattedOf style lines = some df ∧ _is_consistent df = .stopIteration := by
  rcases hf : formattedOf style lines with _ | fmt
  · unfold run at h; rw [hf] at h; exact absurd h (by simp)
  · rw [run_eq_of_formatted hf] at h
    rcases hc : _is_consistent fmt with _ | _ | _ | _ <;> rw [hc] at h
    · obtain rfl : fmt = df := by injection h
      exact ⟨rfl, hc⟩
    · exact absurd h (by simp)
    · exact absurd h (by simp)
    · exact absurd h (by simp)

theorem run_valueError_of_violation {style : Int} {lines : List String}
    {fmt : List LayoutRecord} (hf : formattedOf style lines = some fmt)
    (hv : _is_consistent fmt = .widthError ∨ _is_consistent fmt = .continuityError) :
    run style lines = .valueError := by
  rw [run_eq_of_formatted hf]
  rcases hv with hv | hv <;> rw [hv]

theorem is_consistent_width_violation {fmt : List LayoutRecord}
    (hv : ∃ r ∈ fmt, ¬ check_width r) :
    _is_consistent fmt = .widthError ∨ _is_consistent fmt = .continuityError := by
  cases fmt with
  | nil => obtain ⟨r, hr, _⟩ := hv; exact absurd hr (List.not_mem_nil r)
  | cons c rest =>
    obtain ⟨r, hr, hrv⟩ := hv
    have hv' : ¬ check_width c ∨ ∃ r' ∈ rest, ¬ check_width r' := by
      rcases List.mem_cons.mp hr with h | h
      · exact Or.inl (h ▸ hrv)
      · exact Or.inr ⟨r, h, hrv⟩
    simpa [_is_consistent] using consistency_loop_width_violation hv'

theorem is_consistent_chain_violation {fmt : List LayoutRecord}
    (hv : ¬ List.Chain' Contiguous fmt) :
    _is_consistent fmt = .widthError ∨ _is_consistent fmt = .continuityError := by
  cases fmt with
  | nil => exact absurd List.chain'_nil hv
  | cons c rest =>
    simpa [_is_consistent] using consistency_loop_chain_violation hv

/- ------------------------------------------------------------------
C1 and C2: the width and continuity invariants of `run`.
------------------------------------------------------------------ -/

/-- C1.  Width invariant: every layout record of a `ParsedDictionary`
successfully returned by `DDParser.run` satisfies `length = end - start + 1`,
and a formatted sequence containing a record violating that equation makes
`run` fail (raising `ValueError`) instead of returning it. -/
theorem run_width_invariant (style : Int) (lines : List String) :
    (∀ df, run style lines = RunResult.success df →
      ∀ r ∈ df, r.length = r.end_ - r.start + 1) ∧
    (∀ fmt, formattedOf style lines = some fmt →
      (∃ r ∈ fmt, r.length ≠ r.end_ - r.start + 1) →
      run style lines = RunResult.valueError) := by
  constructor
  · intro df h r hr
    exact (check_width_iff r).mp (is_consistent_stop_width (run_success_elim h).2 r hr)
  · intro fmt hf hv
    obtain ⟨r, hr, hrv⟩ := hv
    exact run_valueError_of_violation hf
      (is_consistent_width_violation ⟨r, hr, fun hb => hrv ((check_width_iff r).mp hb)⟩)

/-- Witness for C1: a parse of two well-formed default-style lines returns
records satisfying the width equation, and a parse whose first record
declares `length 10` over offsets `(1, 5)` fails with `ValueError`. -/
theorem run_width_invariant_witness :
    (∀ r ∈ [(⟨"HRHHID", 15, 1, 15⟩ : LayoutRecord), ⟨"OTHER", 5, 16, 20⟩],
      r.length = r.end_ - r.start + 1) ∧
    run 2 ["BAD 10 DESC (1 - 5)", "Y 5 D (6 - 10)"] = RunResult.valueError := by
  constructor
  · exact (run_width_invariant 2
      ["HRHHID    15  HOUSEHOLD ID   (1 - 15)", "OTHER 5 X (16 - 20)"]).1 _ rfl
  · exact (run_width_invariant 2 ["BAD 10 DESC (1 - 5)", "Y 5 D (6 - 10)"]).2
      [⟨"BAD", 10, 1, 5⟩, ⟨"Y", 5, 6, 10⟩] rfl
      ⟨⟨"BAD", 10, 1, 5⟩, by decide, by decide⟩

/-- C2.  Continuity invariant: in a `ParsedDictionary` successfully returned
by `DDParser.run`, every adjacent pair `(prev, cur)` in order satisfies
`cur.start = prev.end + 1`, and a formatted sequence containing an adjacent
pair violating that equation makes `run` fail (raising `ValueError`) instead
of returning it. -/
theorem run_continuity_invariant (style : Int) (lines : List String) :
    (∀ df, run style lines = RunResult.success df → List.Chain' Contiguous df) ∧
    (∀ fmt, formattedOf style lines = some fmt → ¬ List.Chain' Contiguous fmt →
      run style lines = RunResult.valueError) := by
  constructor
  · intro df h
    exact is_consistent_stop_chain (run_success_elim h).2
  · intro fmt hf hv
    exact run_valueError_of_violation hf (is_consistent_chain_violation hv)

/-- Witness for C2: the same two-line parse has contiguous records, and a
parse of records with offsets `(1, 15)` then `(17, 20)` (a gap) fails with
`ValueError`. -/
theorem run_continuity_invariant_witness :
    List.Chain' Contiguous [(⟨"HRHHID", 15, 1, 15⟩ : LayoutRecord), ⟨"OTHER", 5, 16, 20⟩] ∧
    run 2 ["HRHHID    15  HOUSEHOLD ID   (1 - 15)", "X 4 D (17 - 20)"] =
      RunResult.valueError := by
  constructor
  · exact (run_continuity_invariant 2
      ["HRHHID    15  HOUSEHOLD ID   (1 - 15)", "OTHER 5 X (16 - 20)"]).1 _ rfl
  · exact (run_continuity_invariant 2
      ["HRHHID    15  HOUSEHOLD ID   (1 - 15)", "X 4 D (17 - 20)"]).2
      [⟨"HRHHID", 15, 1, 15⟩, ⟨"X", 4, 17, 20⟩] rfl
      (by simp [List.chain'_cons, Contiguous])

/- ------------------------------------------------------------------
C3: the validator on empty and single-record sequences.
------------------------------------------------------------------ -/

/-- C3.  The empty sequence is accepted (`StopIteration` propagates from the
initial `next(g)` and `run` treats it as success), and a single record that
fails the width check raises `WidthError`; but a single record that *passes*
the width check does not succeed: the `StopIteration` handler evaluates
`check_width(old)` with `old` never assigned, raising `UnboundLocalError`,
so `run` on one well-formed matching line crashes instead of returning the
one-record table. -/
theorem is_consistent_empty_and_single :
    _is_consistent [] = ConsistencyResult.stopIteration ∧
    _is_consistent [(⟨"HRHHID", 15, 1, 15⟩ : LayoutRecord)] =
      ConsistencyResult.unboundLocalError ∧
    _is_consistent [(⟨"BAD", 10, 1, 5⟩ : LayoutRecord)] =
      ConsistencyResult.widthError ∧
    run 2 ["HRHHID    15  HOUSEHOLD ID   (1 - 15)"] = RunResult.crash :=
  ⟨rfl, rfl, rfl, rfl⟩

/- ------------------------------------------------------------------
C4: failure behaviour of `run` on validation errors.
------------------------------------------------------------------ -/

/-- Counterexample for C4: a width violation and a continuity violation both
make `run` end in the same bare `raise ValueError` — the result carries
neither the offending record nor the error kind (the claim says both are
attached to the failure). -/
theorem run_error_attachment_counterexample :
    run 2 ["BAD 10 DESC (1 - 5)", "Y 5 D (6 - 10)"] = RunResult.valueError ∧
    run 2 ["HRHHID    15  HOUSEHOLD ID   (1 - 15)", "X 4 D (17 - 20)"] =
      RunResult.valueError ∧
    run 2 ["BAD 10 DESC (1 - 5)", "Y 5 D (6 - 10)"] =
      run 2 ["HRHHID    15  HOUSEHOLD ID   (1 - 15)", "X 4 D (17 - 20)"] :=
  ⟨rfl, rfl, rfl⟩

/-- C4 (amended).  On a `WidthError` or `ContinuityError` the whole parse
fails by raising a plain `ValueError`, and no partial table is exposed:
`run` returns no records.  (The offending record and the error kind are not
attached to the raised failure.) -/
theorem run_fails_no_partial_table {style : Int} {lines : List String}
    {fmt : List LayoutRecord} (hf : formattedOf style lines = some fmt)
    (hv : _is_consistent fmt = ConsistencyResult.widthError ∨
      _is_consistent fmt = ConsistencyResult.continuityError) :
    run style lines = RunResult.valueError ∧
    ∀ df, run style lines ≠ RunResult.success df := by
  have h := run_valueError_of_violation hf hv
  exact ⟨h, fun df hc => by rw [h] at hc; exact absurd hc (by simp)⟩

/-- Witness for C4: a two-line parse whose second record has an inconsistent
width fails with `ValueError` and returns no records. -/
theorem run_fails_no_partial_table_witness :
    run 2 ["A 3 X (1 - 3)", "B 4 Y (4 - 9)"] = RunResult.valueError ∧
    ∀ df, run 2 ["A 3 X (1 - 3)", "B 4 Y (4 - 9)"] ≠ RunResult.success df :=
  @run_fails_no_partial_table 2 ["A 3 X (1 - 3)", "B 4 Y (4 - 9)"]
    [⟨"A", 3, 1, 3⟩, ⟨"B", 4, 4, 9⟩] rfl (Or.inl rfl)

/- ------------------------------------------------------------------
Calendar lemmas for the period resolver.
------------------------------------------------------------------ -/

/-- A well-formed first-of-month date, as produced by `arrow.get("YYYY-MM")`. -/
def FirstOfMonth (d : Date) : Prop := d.day = 1 ∧ 1 ≤ d.month ∧ d.month ≤ 12

instance (d : Date) : Decidable (FirstOfMonth d) := by
  unfold FirstOfMonth; infer_instance

/-- The first-of-month date with a given month index. -/
def dateOfIndex (i : Nat) : Date := ⟨i / 12, i % 12 + 1, 1⟩

theorem firstOfMonth_dateOfIndex (i : Nat) : FirstOfMonth (dateOfIndex i) := by
  refine ⟨rfl, ?_, ?_⟩ <;> simp only [dateOfIndex] <;> omega

theorem month_index_dateOfIndex (i : Nat) : month_index (dateOfIndex i) = i := by
  simp only [month_index, dateOfIndex]
  omega

theorem dateOfIndex_month_index {d : Date} (h : FirstOfMonth d) :
    dateOfIndex (month_index d) = d := by
  obtain ⟨h1, h2, h3⟩ := h
  cases d with
  | mk y m dy =>
    simp only at h1 h2 h3
    subst h1
    simp only [month_index, dateOfIndex, Date.mk.injEq, and_true, true_and]
    omega

theorem next_month_dateOfIndex {d : Date} (h : FirstOfMonth d) :
    next_month d = dateOfIndex (month_index d + 1) := by
  obtain ⟨h1, h2, h3⟩ := h
  cases d with
  | mk y m dy =>
    simp only at h1 h2 h3
    subst h1
    by_cases hm : m = 12
    · subst hm
      show (⟨y + 1, 1, 1⟩ : Date) = dateOfIndex (month_index ⟨y, 12, 1⟩ + 1)
      simp [month_index, dateOfIndex, Date.mk.injEq]
      omega
    · unfold next_month
      rw [if_neg (show ¬(Date.month ⟨y, m, 1⟩ = 12) from hm)]
      simp [month_index, dateOfIndex, Date.mk.injEq]
      omega

theorem mk_range_aux_eq {d : Date} (h : FirstOfMonth d) : ∀ n : Nat,
    mk_range_aux n d = (List.range n).map (fun k => dateOfIndex (month_index d + k)) := by
  have key : ∀ (n : Nat) (j : Nat), mk_range_aux n (dateOfIndex j) =
      (List.range n).map (fun k => dateOfIndex (j + k)) := by
    intro n
    induction n with
    | zero => intro j; simp [mk_range_aux]
    | succ n ih =>
      intro j
      rw [List.range_succ_eq_map]
      simp only [mk_range_aux, List.map_cons, List.map_map]
      have h0 : dateOfIndex (j + 0) = dateOfIndex j := by congr 1
      rw [h0]
      congr 1
      rw [next_month_dateOfIndex (firstOfMonth_dateOfIndex j), month_index_dateOfIndex,
        ih (j + 1)]
      congr 1
      funext k
      simp only [Function.comp]
      congr 1
      omega
  intro n
  have hk := key n (month_index d)
  rwa [dateOfIndex_month_index h] at hk

/-- Membership of a first-of-month date in an `arrow` month range is exactly
the inclusive month-index interval test. -/
theorem mem_mk_range_iff {lo hi : Date} (h : FirstOfMonth lo) (i : Nat) :
    dateOfIndex i ∈ mk_range lo hi ↔
      month_index lo ≤ i ∧ i ≤ month_index hi := by
  unfold mk_range
  rw [mk_range_aux_eq h]
  simp only [List.mem_map, List.mem_range]
  constructor
  · rintro ⟨k, hk, he⟩
    have he' := congrArg month_index he
    rw [month_index_dateOfIndex, month_index_dateOfIndex] at he'
    omega
  · rintro ⟨h1, h2⟩
    refine ⟨i - month_index lo, by omega, ?_⟩
    congr 1
    omega

/-- Every element of a month range keeps the day-of-month of the range's
start. -/
theorem mk_range_aux_day : ∀ (n : Nat) (d x : Date), x ∈ mk_range_aux n d → x.day = d.day := by
  intro n
  induction n with
  | zero => intro d x h; simp [mk_range_aux] at h
  | succ n ih =>
    intro d x h
    simp only [mk_range_aux, List.mem_cons] at h
    rcases h with h | h
    · rw [h]
    · have hd := ih (next_month d) x h
      rw [hd]
      simp only [next_month]
      split <;> rfl

theorem mk_range_day {lo hi x : Date} (h : x ∈ mk_range lo hi) : x.day = lo.day :=
  mk_range_aux_day _ lo x h

/-- First element of the mapped filter when exactly one element matches. -/
theorem head_filter_of_unique {α β : Type} (l : List α) (p : α → Bool) (f : α → β)
    (e : α) (he : e ∈ l) (hpe : p e = true) (huniq : ∀ x ∈ l, p x = true → x = e) :
    (((l.filter p).map f).head?) = some (f e) := by
  induction l with
  | nil => exact absurd he (List.not_mem_nil e)
  | cons a l ih =>
    by_cases hpa : p a = true
    · have ha : a = e := huniq a (List.mem_cons_self a l) hpa
      rw [List.filter_cons_of_pos hpa]
      simp [ha]
    · rw [List.filter_cons_of_neg (by simpa using hpa)]
      have he' : e ∈ l := by
        rcases List.mem_cons.mp he with h | h
        · exact absurd (h ▸ hpe) hpa
        · exact h
      exact ih he' (fun x hx hpx => huniq x (List.mem_cons_of_mem a hx) hpx)

/-- Every range start in the table is a well-formed first-of-month. -/
theorem dd_to_month_wf : ∀ kv ∈ dd_to_month, FirstOfMonth kv.2.1 := by decide

/-- The fifteen index intervals of the table are pairwise disjoint. -/
theorem dd_to_month_disjoint : ∀ kv ∈ dd_to_month, ∀ kv' ∈ dd_to_month, kv ≠ kv' →
    month_index kv.2.2 < month_index kv'.2.1 ∨
      month_index kv'.2.2 < month_index kv.2.1 := by decide

/- ------------------------------------------------------------------
C6: style resolution.
------------------------------------------------------------------ -/

/-- C6.  Style resolution never fails: a dictionary name absent from the
static name-to-style table receives `max(styles.values())`, which is the
numerically greatest style identifier (2) in the table; and `make_regex`
returns the default/general pattern for every style identifier outside its
pattern table instead of raising. -/
theorem style_resolution_total :
    (∀ name : String, styles.lookup name = none → styleFor name = max_style) ∧
    max_style = 2 ∧
    (∀ kv ∈ styles, kv.2 ≤ max_style) ∧
    (∃ kv ∈ styles, kv.2 = max_style) ∧
    (∀ s : Int, s ≠ 0 → s ≠ 1 → s ≠ 2 → make_regex s = default_regex) := by
  refine ⟨?_, by decide, by decide, by decide, ?_⟩
  · intro name h
    simp [styleFor, h]
  · intro s h0 h1 h2
    simp [make_regex, List.lookup,
      show (s == 0) = false from beq_eq_false_iff_ne.mpr h0,
      show (s == 1) = false from beq_eq_false_iff_ne.mpr h1,
      show (s == 2) = false from beq_eq_false_iff_ne.mpr h2]

/-- Witness for C6: the unknown dictionary name `"zzz"` resolves to style 2
and the unknown style identifier 7 yields the default pattern. -/
theorem style_resolution_total_witness :
    styleFor "zzz" = max_style ∧ make_regex 7 = default_regex :=
  ⟨style_resolution_total.1 "zzz" rfl,
   style_resolution_total.2.2.2.2 7 (by decide) (by decide) (by decide)⟩

/- ------------------------------------------------------------------
C7, C8, C9: the period resolver.
------------------------------------------------------------------ -/

/-- Shared helper: when no table range contains the queried value, the
filter is empty and `list(dd)[0]` raises `IndexError` (failed resolution). -/
theorem month_to_dd_eq_none {month : Date}
    (h : ∀ kv ∈ dd_to_month, month ∉ mk_range kv.2.1 kv.2.2) :
    _month_to_dd month = none := by
  unfold _month_to_dd
  have hf : dd_to_month.filter (fun kv => decide (month ∈ mk_range kv.2.1 kv.2.2)) = [] := by
    rw [List.filter_eq_nil_iff]
    intro kv hkv
    simp [h kv hkv]
  rw [hf]
  rfl

/-- C7.  Period coverage: for every month index inside the inclusive bounds
of a configured range of the table, the resolver returns that range's
dictionary name. -/
theorem month_to_dd_covers (name : String) (lo hi : Date) (i : Nat)
    (hmem : (name, lo, hi) ∈ dd_to_month)
    (h1 : month_index lo ≤ i) (h2 : i ≤ month_index hi) :
    _month_to_dd (dateOfIndex i) = some name := by
  unfold _month_to_dd
  have hwf := dd_to_month_wf _ hmem
  apply head_filter_of_unique dd_to_month _ _ (name, lo, hi) hmem
  · simp only [decide_eq_true_eq]
    exact (mem_mk_range_iff hwf i).mpr ⟨h1, h2⟩
  · intro x hx hpx
    simp only [decide_eq_true_eq] at hpx
    have hx' := (mem_mk_range_iff (dd_to_month_wf _ hx) i).mp hpx
    by_cases he : x = (name, lo, hi)
    · exact he
    · exfalso
      rcases dd_to_month_disjoint x hx (name, lo, hi) hmem he with hd | hd <;>
        (dsimp only at hd; omega)

/-- Witness for C7: resolving `"1994-02"` (month index of 1994-02) returns
`"jan1994"`, as in the spec's scenario. -/
theorem month_to_dd_covers_witness : _month_to_dd ⟨1994, 2, 1⟩ = some "jan1994" := by
  have h := month_to_dd_covers "jan1994" ⟨1994, 1, 1⟩ ⟨1994, 3, 1⟩
    (month_index ⟨1994, 2, 1⟩) (by decide) (by decide) (by decide)
  rwa [show dateOfIndex (month_index ⟨1994, 2, 1⟩) = ⟨1994, 2, 1⟩ from by decide] at h

/-- C8.  A month contained in no configured range fails resolution (the
empty filter makes `list(dd)[0]` raise `IndexError`, the spec's
`PeriodNotFoundError`) and no dictionary name is returned. -/
theorem month_to_dd_not_found {month : Date}
    (h : ∀ kv ∈ dd_to_month, month ∉ mk_range kv.2.1 kv.2.2) :
    _month_to_dd month = none :=
  month_to_dd_eq_none h

/-- Witness for C8: `"1899-01"` is outside every range and fails. -/
theorem month_to_dd_not_found_witness : _month_to_dd ⟨1899, 1, 1⟩ = none :=
  month_to_dd_not_found (by decide)

/-- Counterexample for C9: `1994-02-01` and `1994-02-15` denote the same
calendar month, yet the first resolves to `"jan1994"` while the second fails
(resolution compares exact dates against first-of-month points, so the
day-of-month is *not* normalized away). -/
theorem month_to_dd_day_counterexample :
    _month_to_dd ⟨1994, 2, 1⟩ = some "jan1994" ∧
    _month_to_dd ⟨1994, 2, 15⟩ = none := by
  constructor <;> decide

/-- C9 (amended).  The resolver tests the queried value for membership in
lists of first-of-month points by exact date equality: any input whose
day-of-month is not 1 fails resolution, so two inputs with the same year and
month resolve alike only when both denote the first of the month. -/
theorem month_to_dd_day_not_normalized {d : Date} (h : d.day ≠ 1) :
    _month_to_dd d = none := by
  apply month_to_dd_eq_none
  intro kv hkv hmem
  have hd := mk_range_day hmem
  have hall : ∀ kv' ∈ dd_to_month, kv'.2.1.day = 1 := by decide
  exact h (hd.trans (hall kv hkv))

/-- Witness for C9's amended statement at the concrete input `1994-02-15`. -/
theorem month_to_dd_day_not_normalized_witness :
    _month_to_dd ⟨1994, 2, 15⟩ = none :=
  month_to_dd_day_not_normalized (by decide)

theorem reMatch_length {re : CompiledRegex} {s : String} {gs : List String}
    (h : reMatch re s = some gs) : gs.length = re.groups := by
  simp only [reMatch] at h
  rcases hm : re.pattern.findSome? (fun es => rmatch es s.data 0 [] []) with _ | caps <;>
    rw [hm] at h <;> simp only [Option.map_none', Option.map_some', Option.some.injEq] at h
  · exact absurd h (by simp)
  · rw [← h]
    simp

theorem default_match_props {s : String} {g1 g2 g3 g4 g5 : String}
    (h : reMatch default_regex s = some [g1, g2, g3, g4, g5]) :
    (∀ c ∈ g1.data, isWordChar c) ∧ g2.data.length ≤ 2 := by
  simp only [reMatch, default_regex] at h
  rcases hm : List.findSome? (fun es => rmatch es s.data 0 [] []) [default_elems]
    with _ | caps <;>
    rw [hm] at h <;> simp only [Option.map_none', Option.map_some', Option.some.injEq] at h
  · exact absurd h (by simp)
  have hr : rmatch default_elems s.data 0 [] [] = some caps := by
    obtain ⟨es, hes, h'⟩ := List.exists_of_findSome?_eq_some hm
    simp only [List.mem_singleton] at hes
    subst hes
    exact h'
  unfold default_elems at hr
  obtain ⟨k0, _, _, _, hr⟩ := rmatch_cls_elim hr
  rw [rmatch_openG] at hr
  obtain ⟨k1, hk1lo, hk1w, _, hr⟩ := rmatch_cls_elim hr
  obtain ⟨a1, ha1, hr⟩ := rmatch_closeG_elim hr
  simp only [List.lookup, beq_self_eq_true, Option.some.injEq] at ha1
  subst ha1
  obtain ⟨ks, _, _, _, hr⟩ := rmatch_cls_elim hr
  rw [rmatch_openG] at hr
  obtain ⟨k2, hk2lo, hk2w, hk2hi, hr⟩ := rmatch_cls_elim hr
  obtain ⟨a2, ha2, hr⟩ := rmatch_closeG_elim hr
  simp only [List.lookup, beq_self_eq_true, Option.some.injEq] at ha2
  subst ha2
  have hcn : closedNums [RElem.cls isSpaceChar 0 none false,
      RElem.openG 3, RElem.cls isAnyChar 0 none true, RElem.closeG 3,
      RElem.cls isSpaceChar 0 none false,
      RElem.cls (fun c => c == '(') 0 none false,
      RElem.openG 4, RElem.cls isDigitChar 1 none false, RElem.closeG 4,
      RElem.cls isSpaceChar 0 none false,
      RElem.lit ['-'],
      RElem.cls isSpaceChar 0 none false,
      RElem.openG 5, RElem.cls isDigitChar 1 none false, RElem.closeG 5,
      RElem.cls (fun c => c == ')') 0 none false,
      RElem.cls isSpaceChar 0 none false,
      RElem.eos] = [3, 4, 5] := rfl
  have hmem1 : ((1 : Nat), 0 + k0, 0 + k0 + k1) ∈ caps :=
    rmatch_caps_mono hr _ (by simp)
  have hmem2 : ((2 : Nat), 0 + k0 + k1 + ks, 0 + k0 + k1 + ks + k2) ∈ caps :=
    rmatch_caps_mono hr _ (by simp)
  have hfind1 : caps.find? (fun c => c.1 == 0 + 1) = some (1, 0 + k0, 0 + k0 + k1) := by
    rcases hf : caps.find? (fun c => c.1 == 0 + 1) with _ | c
    · rw [List.find?_eq_none] at hf
      exact absurd (by simp) (hf _ hmem1)
    · have hc1 : c.1 = 1 := by simpa using List.find?_some hf
      rcases rmatch_caps_new hr c (List.mem_of_find?_eq_some hf) with hin | hin
      · rcases (by simpa using hin :
            c = ((2 : Nat), 0 + k0 + k1 + ks, 0 + k0 + k1 + ks + k2) ∨
            c = ((1 : Nat), 0 + k0, 0 + k0 + k1)) with rfl | rfl
        · simp at hc1
        · exact hf
      · rw [hcn] at hin
        rw [hc1] at hin
        simp at hin
  have hfind2 : caps.find? (fun c => c.1 == 1 + 1) =
      some (2, 0 + k0 + k1 + ks, 0 + k0 + k1 + ks + k2) := by
    rcases hf : caps.find? (fun c => c.1 == 1 + 1) with _ | c
    · rw [List.find?_eq_none] at hf
      exact absurd (by simp) (hf _ hmem2)
    · have hc1 : c.1 = 2 := by simpa using List.find?_some hf
      rcases rmatch_caps_new hr c (List.mem_of_find?_eq_some hf) with hin | hin
      · rcases (by simpa using hin :
            c = ((2 : Nat), 0 + k0 + k1 + ks, 0 + k0 + k1 + ks + k2) ∨
            c = ((1 : Nat), 0 + k0, 0 + k0 + k1)) with rfl | rfl
        · exact hf
        · simp at hc1
      · rw [hcn] at hin
        rw [hc1] at hin
        simp at hin
  have hrange : List.range 5 = [0, 1, 2, 3, 4] := rfl
  rw [hrange] at h
  simp only [List.map_cons, List.map_nil, List.cons.injEq, and_true] at h
  obtain ⟨hg1, hg2, -, -, -⟩ := h
  rw [hfind1] at hg1
  rw [hfind2] at hg2
  constructor
  · rw [← hg1]
    dsimp only
    have h01 : 0 + k0 + k1 - (0 + k0) = k1 := by omega
    have h00 : 0 + k0 = k0 := by omega
    rw [h01, h00]
    intro c hc
    exact take_sat_of_le_takeWhile hk1w c hc
  · rw [← hg2]
    dsimp only
    have h02 : 0 + k0 + k1 + ks + k2 - (0 + k0 + k1 + ks) = k2 := by omega
    rw [h02]
    calc (List.take k2 (List.drop (0 + k0 + k1 + ks) s.data)).length
        ≤ k2 := List.length_take_le k2 _
      _ ≤ 2 := hk2hi 2 rfl

theorem find_capture_unique {tail : List RElem} {cs : List Char} {pos : Nat}
    {opens : List (Nat × Nat)} {prev caps : List (Nat × Nat × Nat)} {n a b : Nat}
    (hr : rmatch tail cs pos opens ((n, a, b) :: prev) = some caps)
    (hnot_tail : n ∉ closedNums tail) (hnot_prev : ∀ c ∈ prev, c.1 ≠ n) :
    caps.find? (fun c => c.1 == n) = some (n, a, b) := by
  rcases hf : caps.find? (fun c => c.1 == n) with _ | c
  · rw [List.find?_eq_none] at hf
    exact absurd (by simp) (hf _ (rmatch_caps_mono hr _ (List.mem_cons_self _ _)))
  · have hc1 : c.1 = n := by simpa using List.find?_some hf
    rcases rmatch_caps_new hr c (List.mem_of_find?_eq_some hf) with hin | hin
    · rcases List.mem_cons.mp hin with rfl | hin
      · exact hf
      · exact absurd hc1 (hnot_prev c hin)
    · rw [hc1] at hin
      exact absurd hin hnot_tail

theorem style1_match_group2 {s : String} {g1 g2 g3 : String}
    (h : reMatch style1_regex s = some [g1, g2, g3]) : g2.data.length ≤ 2 := by
  simp only [reMatch, style1_regex] at h
  rcases hm : List.findSome? (fun es => rmatch es s.data 0 [] []) [style1_elems]
    with _ | caps <;>
    rw [hm] at h <;> simp only [Option.map_none', Option.map_some', Option.some.injEq] at h
  · exact absurd h (by simp)
  have hr : rmatch style1_elems s.data 0 [] [] = some caps := by
    obtain ⟨es, hes, h'⟩ := List.exists_of_findSome?_eq_some hm
    simp only [List.mem_singleton] at hes
    subst hes
    exact h'
  unfold style1_elems at hr
  obtain ⟨-, hr⟩ := rmatch_lit_elim hr
  rw [rmatch_openG] at hr
  obtain ⟨k1, -, -, -, hr⟩ := rmatch_cls_elim hr
  obtain ⟨a1, ha1, hr⟩ := rmatch_closeG_elim hr
  simp only [List.lookup, beq_self_eq_true, Option.some.injEq] at ha1
  subst ha1
  obtain ⟨-, hr⟩ := rmatch_lit_elim hr
  obtain ⟨ks, -, -, -, hr⟩ := rmatch_cls_elim hr
  obtain ⟨-, hr⟩ := rmatch_lit_elim hr
  rw [rmatch_openG] at hr
  obtain ⟨k2, -, -, hk2hi, hr⟩ := rmatch_cls_elim hr
  obtain ⟨a2, ha2, hr⟩ := rmatch_closeG_elim hr
  simp only [List.lookup, beq_self_eq_true, Option.some.injEq] at ha2
  subst ha2
  have hfind2 := find_capture_unique (n := 1 + 1) hr (by decide)
    (fun c hc => by
      simp only [List.mem_singleton] at hc
      subst hc
      simp)
  have hrange : List.range 3 = [0, 1, 2] := rfl
  rw [hrange] at h
  simp only [List.map_cons, List.map_nil, List.cons.injEq, and_true] at h
  obtain ⟨-, hg2, -⟩ := h
  rw [hfind2] at hg2
  rw [← hg2]
  dsimp only
  have hk2' : k2 ≤ 2 := hk2hi 2 rfl
  refine le_trans (List.length_take_le _ _) ?_
  omega

theorem digit_toNat {c : Char} (h : c.isDigit = true) : 48 ≤ c.toNat ∧ c.toNat ≤ 57 := by
  simp only [Char.isDigit, Bool.and_eq_true, decide_eq_true_eq] at h
  exact h

theorem digits_fold_lt_100 {l : List Char} (h : ∀ c ∈ l, c.isDigit = true)
    (hl : l.length ≤ 2) :
    l.foldl (fun acc c => acc * 10 + (c.toNat - 48)) 0 < 100 := by
  rcases l with _ | ⟨c1, _ | ⟨c2, _ | ⟨c3, l3⟩⟩⟩
  · decide
  · have h1 := digit_toNat (h c1 (by simp))
    simp only [List.foldl]
    omega
  · have h1 := digit_toNat (h c1 (by simp))
    have h2 := digit_toNat (h c2 (by simp))
    simp only [List.foldl]
    omega
  · simp at hl

theorem py_int_lt_100 {s : String} {v : Int} (h : py_int s = some v)
    (hl : s.data.length ≤ 2) : v < 100 := by
  unfold py_int at h
  by_cases hcond : s.data ≠ [] ∧ s.data.all Char.isDigit
  · rw [if_pos hcond] at h
    injection h with h
    subst h
    have hd : ∀ c ∈ s.data, c.isDigit = true := List.all_eq_true.mp hcond.2
    exact_mod_cast digits_fold_lt_100 hd hl
  · rw [if_neg hcond] at h
    exact absurd h (by simp)

theorem traverseOpt_mem {α β : Type} {f : α → Option β} : ∀ {l : List α} {l' : List β},
    traverseOpt f l = some l' → ∀ y ∈ l', ∃ x ∈ l, f x = some y := by
  intro l
  induction l with
  | nil =>
    intro l' h y hy
    simp only [traverseOpt, Option.some.injEq] at h
    subst h
    simp at hy
  | cons x xs ih =>
    intro l' h y hy
    simp only [traverseOpt] at h
    rcases hfx : f x with _ | z <;> rw [hfx] at h
    · exact absurd h (by simp)
    · rcases hxs : traverseOpt f xs with _ | ys <;> rw [hxs] at h
      · exact absurd h (by simp)
      · have h' : some (z :: ys) = some l' := h
        injection h' with h'
        subst h'
        rcases List.mem_cons.mp hy with rfl | hy'
        · exact ⟨x, List.mem_cons_self x xs, hfx⟩
        · obtain ⟨x', hx', hfx'⟩ := ih hxs y hy'
          exact ⟨x', List.mem_cons_of_mem x hx', hfx'⟩

theorem make_regex_fallback {style : Int} (h0 : style ≠ 0) (h1 : style ≠ 1) :
    make_regex style = default_regex := by
  by_cases h2 : style = 2
  · subst h2
    rfl
  · simp [make_regex, List.lookup,
      show (style == 0) = false from beq_eq_false_iff_ne.mpr h0,
      show (style == 1) = false from beq_eq_false_iff_ne.mpr h1,
      show (style == 2) = false from beq_eq_false_iff_ne.mpr h2]

theorem exists_len3 {α : Type} {l : List α} (h : l.length = 3) :
    ∃ a b c, l = [a, b, c] := by
  rcases l with _ | ⟨a, l⟩
  · simp at h
  rcases l with _ | ⟨b, l⟩
  · simp at h
  rcases l with _ | ⟨c, l⟩
  · simp at h
  rcases l with _ | ⟨d, l⟩
  · exact ⟨a, b, c, rfl⟩
  · simp at h

theorem exists_len4 {α : Type} {l : List α} (h : l.length = 4) :
    ∃ a b c d, l = [a, b, c, d] := by
  rcases l with _ | ⟨a, l⟩
  · simp at h
  obtain ⟨b, c, d, rfl⟩ := exists_len3 (by simpa using h)
  exact ⟨a, b, c, d, rfl⟩

theorem exists_len5 {α : Type} {l : List α} (h : l.length = 5) :
    ∃ a b c d e, l = [a, b, c, d, e] := by
  rcases l with _ | ⟨a, l⟩
  · simp at h
  obtain ⟨b, c, d, e, rfl⟩ := exists_len4 (by simpa using h)
  exact ⟨a, b, c, d, e, rfl⟩

theorem formatter_three {g1 g2 g3 : String} {r : LayoutRecord}
    (hf : formatter 1 [g1, g2, g3] = some r) :
    ∃ l st, py_int g2 = some l ∧ py_int g3 = some st ∧
      r = ⟨g1, l, st, st + l - 1⟩ := by
  have hf' : (match py_int g2, py_int g3 with
      | some l, some st => some (⟨g1, l, st, st + l - 1⟩ : LayoutRecord)
      | _, _ => none) = some r := hf
  rcases hl : py_int g2 with _ | l <;> rw [hl] at hf'
  · exact absurd hf' (by simp)
  rcases hs : py_int g3 with _ | st <;> rw [hs] at hf'
  · exact absurd hf' (by simp)
  have h2 : some (⟨g1, l, st, st + l - 1⟩ : LayoutRecord) = some r := hf'
  injection h2 with h2
  exact ⟨l, st, rfl, rfl, h2.symm⟩

theorem formatter_four {style : Int} (hs1 : style ≠ 1) {g1 g2 g3 g4 : String}
    {r : LayoutRecord} (hf : formatter style [g1, g2, g3, g4] = some r) :
    ∃ l st e, py_int g2 = some l ∧
      r = ⟨handle_replacers g1, l, st, e⟩ := by
  unfold formatter at hf
  rw [if_neg hs1] at hf
  have hf' : (match py_int g2, py_int g3, py_int g4 with
      | some l, some st, some e =>
          some (⟨handle_replacers g1, l, st, e⟩ : LayoutRecord)
      | _, _, _ => none) = some r := hf
  rcases hl : py_int g2 with _ | l <;> rw [hl] at hf'
  · exact absurd hf' (by simp)
  rcases hst : py_int g3 with _ | st <;> rw [hst] at hf'
  · exact absurd hf' (by simp)
  rcases he : py_int g4 with _ | e <;> rw [he] at hf'
  · exact absurd hf' (by simp)
  have h2 : some (⟨handle_replacers g1, l, st, e⟩ : LayoutRecord) = some r := hf'
  injection h2 with h2
  exact ⟨l, st, e, rfl, h2.symm⟩

theorem formatter_five {style : Int} (hs1 : style ≠ 1) {g1 g2 g3 g4 g5 : String}
    {r : LayoutRecord} (hf : formatter style [g1, g2, g3, g4, g5] = some r) :
    ∃ l st e, py_int g2 = some l ∧ r = ⟨g1, l, st, e⟩ := by
  unfold formatter at hf
  rw [if_neg hs1] at hf
  have hf' : (match py_int g2, py_int g4, py_int g5 with
      | some l, some st, some e => some (⟨g1, l, st, e⟩ : LayoutRecord)
      | _, _, _ => none) = some r := hf
  rcases hl : py_int g2 with _ | l <;> rw [hl] at hf'
  · exact absurd hf' (by simp)
  rcases hst : py_int g4 with _ | st <;> rw [hst] at hf'
  · exact absurd hf' (by simp)
  rcases he : py_int g5 with _ | e <;> rw [he] at hf'
  · exact absurd hf' (by simp)
  have h2 : some (⟨g1, l, st, e⟩ : LayoutRecord) = some r := hf'
  injection h2 with h2
  exact ⟨l, st, e, rfl, h2.symm⟩

theorem word_char_not_special {c : Char} (h : isWordChar c = true) :
    c ≠ '$' ∧ c ≠ '%' ∧ c ≠ '-' := by
  refine ⟨?_, ?_, ?_⟩ <;> rintro rfl <;> exact absurd h (by decide)

theorem replace_char_no_bad {bad good : Char} (hg : good ≠ bad) (s : String) :
    ∀ c ∈ (replace_char bad good s).data, c ≠ bad := by
  intro c hc
  simp only [replace_char] at hc
  obtain ⟨a, -, rfl⟩ := List.mem_map.mp hc
  by_cases h : a = bad
  · simpa [h] using hg
  · simp [h]

theorem replace_char_keeps {bad good x : Char} (hgx : good ≠ x) (s : String)
    (h : ∀ c ∈ s.data, c ≠ x) : ∀ c ∈ (replace_char bad good s).data, c ≠ x := by
  intro c hc
  simp only [replace_char] at hc
  obtain ⟨a, ha, rfl⟩ := List.mem_map.mp hc
  by_cases hab : a = bad
  · simpa [hab] using hgx
  · simpa [hab] using h a ha

theorem handle_replacers_clean (s : String) :
    ∀ c ∈ (handle_replacers s).data, c ≠ '$' ∧ c ≠ '%' ∧ c ≠ '-' := by
  intro c hc
  unfold handle_replacers at hc
  refine ⟨?_, ?_, ?_⟩
  · exact replace_char_keeps (by decide) _
      (replace_char_keeps (by decide) _ (replace_char_no_bad (by decide) s)) c hc
  · exact replace_char_keeps (by decide) _ (replace_char_no_bad (by decide) _) c hc
  · exact replace_char_no_bad (by decide) _ c hc

/-- C5.  Identifier normalization: for every non-compact style (any style
other than 1), no `$`, `%` or `-` remains in the identifier of any record
returned by `run` — style 0 rewrites them via `handle_replacers` (`$` to
`d`, `%` to `p`, `-` to `h`), and the default pattern's `(\\w+)` group can
never capture them. -/
theorem run_identifier_normalization (style : Int) (hs : style ≠ 1)
    (lines : List String) (df : List LayoutRecord)
    (h : run style lines = RunResult.success df) :
    ∀ r ∈ df, ∀ c ∈ r.id.data, c ≠ '$' ∧ c ≠ '%' ∧ c ≠ '-' := by
  obtain ⟨hfmt, -⟩ := run_success_elim h
  simp only [formattedOf] at hfmt
  intro r hr
  obtain ⟨gs, hgs, hform⟩ := traverseOpt_mem hfmt r hr
  simp only [matched_lines] at hgs
  obtain ⟨line, -, hline⟩ := List.mem_filterMap.mp hgs
  by_cases h0 : style = 0
  · subst h0
    have hlen : gs.length = 4 := reMatch_length hline
    obtain ⟨g1, g2, g3, g4, rfl⟩ := exists_len4 hlen
    obtain ⟨l, st, e, -, rfl⟩ := formatter_four hs hform
    intro c hc
    exact handle_replacers_clean g1 c hc
  · rw [make_regex_fallback h0 hs] at hline
    have hlen : gs.length = 5 := reMatch_length hline
    obtain ⟨g1, g2, g3, g4, g5, rfl⟩ := exists_len5 hlen
    obtain ⟨l, st, e, -, rfl⟩ := formatter_five hs hform
    intro c hc
    exact word_char_not_special ((default_match_props hline).1 c hc)

/-- C10 (amended).  In the default/general style and the compact style the
length capture is `\\d{1,2}`, so no record produced by a successful `run`
under those styles carries a length of 100 or more; and a compact-style
line declaring a three-digit length fails to match.  (A default-style line
declaring a three-digit length, however, can still match, with only the
first two digits captured as the length — see the counterexample.) -/
theorem length_capture_two_digits :
    (∀ style : Int, style ≠ 0 → ∀ (lines : List String) (df : List LayoutRecord),
      run style lines = RunResult.success df → ∀ r ∈ df, r.length < 100) ∧
    reMatch style1_regex "D HRHHID  100  1" = none := by
  constructor
  · intro style h0 lines df h r hr
    obtain ⟨hfmt, -⟩ := run_success_elim h
    simp only [formattedOf] at hfmt
    obtain ⟨gs, hgs, hform⟩ := traverseOpt_mem hfmt r hr
    simp only [matched_lines] at hgs
    obtain ⟨line, -, hline⟩ := List.mem_filterMap.mp hgs
    by_cases h1 : style = 1
    · subst h1
      have hlen : gs.length = 3 := reMatch_length hline
      obtain ⟨g1, g2, g3, rfl⟩ := exists_len3 hlen
      obtain ⟨l, st, hl, -, rfl⟩ := formatter_three hform
      exact py_int_lt_100 hl (style1_match_group2 hline)
    · rw [make_regex_fallback h0 h1] at hline
      have hlen : gs.length = 5 := reMatch_length hline
      obtain ⟨g1, g2, g3, g4, g5, rfl⟩ := exists_len5 hlen
      obtain ⟨l, st, e, hl, rfl⟩ := formatter_five h1 hform
      exact py_int_lt_100 hl (default_match_props hline).2
  · rfl


/-- Witness for C5: a style-0 parse of an `AG-1`/`PADDING` dictionary
returns identifiers (`AGh1`, `PADDING`) free of `$`, `%` and `-`. -/
theorem run_identifier_normalization_witness :
    (0 : Int) ≠ 1 ∧
    ∀ r ∈ [(⟨"AGh1", 3, 1, 3⟩ : LayoutRecord), ⟨"PADDING", 2, 4, 5⟩],
      ∀ c ∈ r.id.data, c ≠ '$' ∧ c ≠ '%' ∧ c ≠ '-' :=
  ⟨by decide, run_identifier_normalization 0 (by decide)
    ["AG-1 CHARACTER*003 .(001:003)", "PADDING CHARACTER*002 .(004:005)"]
    [⟨"AGh1", 3, 1, 3⟩, ⟨"PADDING", 2, 4, 5⟩] rfl⟩

/-- Counterexample for C10: a default-style line declaring field length 100
*does* match the default pattern — `\\d{1,2}` captures only `"10"` and the
lazy description group absorbs the leftover digit — and `run` on it then
fails with `ValueError` from the width check, so the line is neither
unmatched nor silently skipped. -/
theorem length_capture_counterexample :
    reMatch default_regex "HRHHID 100 HOUSEHOLD ID (1 - 100)" =
      some ["HRHHID", "10", "0 HOUSEHOLD ID", "1", "100"] ∧
    run 2 ["HRHHID 100 HOUSEHOLD ID (1 - 100)"] = RunResult.valueError :=
  ⟨rfl, rfl⟩

/-- Witness for C10's amended statement: a successful default-style parse
whose records all have lengths below 100. -/
theorem length_capture_two_digits_witness :
    (2 : Int) ≠ 0 ∧
    ∀ r ∈ [(⟨"HRHHID", 15, 1, 15⟩ : LayoutRecord), ⟨"OTHER", 5, 16, 20⟩],
      r.length < 100 :=
  ⟨by decide, length_capture_two_digits.1 2 (by decide)
    ["HRHHID    15  HOUSEHOLD ID   (1 - 15)", "OTHER 5 X (16 - 20)"]
    [⟨"HRHHID", 15, 1, 15⟩, ⟨"OTHER", 5, 16, 20⟩] rfl⟩


end PyCPS
